import Mathlib

/-!
Verification of the response-decoder / artifact-materializer core of the maai
multi-agent pipeline (`src/agents/architect.py`, `src/agents/coder.py`,
`src/agents/base_agent.py`).

The Python code extracts labelled blocks from raw LLM output with a family of
regex patterns and writes the resulting artifacts under a project directory.
This file gives a shallow embedding of that code:

* raw text is `List Char` (named `Str`); string literals enter via `lit`;
* each regex-driven extraction loop is embedded as an executable scanner whose
  semantics follow the Python `re` engine on the concrete pattern used by the
  source (leftmost match, greedy `\s*`/`\s+`, lazy `(.*?)`, `re.DOTALL`,
  `re.IGNORECASE` restricted to ASCII case folding — all delimiter tokens are
  ASCII);
* filesystem writes are modelled by an oracle `Str → FsBehavior` saying, per
  target file path, whether directory creation (`mkdir`) or the file
  open/write raises `OSError`; the log of created files and logged errors is
  threaded explicitly;
* Python exceptions raised by the parse-and-write functions are modelled with
  `Except PyError`.
-/

set_option maxRecDepth 4096

namespace Maai

/-- Raw text, as a list of characters. -/
abbrev Str := List Char

/-- Embed a Lean string literal as raw text. -/
def lit (s : String) : Str := s.data

/-- ASCII fragment of Python's `\s` character class / `str.strip()` default
set: space, tab, newline, carriage return, vertical tab, form feed. -/
def isWs (c : Char) : Bool :=
  c == ' ' || c == '\t' || c == '\n' || c == '\r' || c == '\x0b' || c == '\x0c'

/-- Case-insensitive character comparison (ASCII case folding), modelling
`re.IGNORECASE` on the ASCII delimiter tokens used by the source. -/
def charEqCI (a b : Char) : Bool := a.toLower == b.toLower

/-- Does `pat` match a prefix of `s`, case-insensitively? -/
def startsWithCI : Str → Str → Bool
  | [], _ => true
  | _ :: _, [] => false
  | p :: ps, c :: cs => charEqCI p c && startsWithCI ps cs

/-- Leftmost occurrence search: split `s` as `before ++ rest` where `rest` is
the first suffix at which `pat` matches (case-insensitively). `none` when
`pat` occurs nowhere in `s`. -/
def splitAtFirstCI (pat : Str) : Str → Option (Str × Str)
  | [] => if pat = [] then some ([], []) else none
  | c :: cs =>
    if startsWithCI pat (c :: cs) then some ([], c :: cs)
    else
      match splitAtFirstCI pat cs with
      | some (b, r) => some (c :: b, r)
      | none => none

/-- Does `pat` occur (entirely) inside `s`, case-insensitively? -/
def containsTokCI (pat : Str) : Str → Bool
  | [] => false
  | c :: cs => startsWithCI pat (c :: cs) || containsTokCI pat cs

/-- Body capture of the patterns `...>>>\s*(.*?)(?=\s*STOP|\Z)`: the lazy group
extends to the first position where the lookahead succeeds, i.e. where the
remaining text is optional whitespace followed by `stop`, or to end of string.
Returns `(body, rest)` where `rest` is the suffix at which scanning resumes
(the lookahead consumes nothing). -/
def takeBody (stop : Str) : Str → Str × Str
  | [] => ([], [])
  | c :: cs =>
    if startsWithCI stop ((c :: cs).dropWhile isWs) then ([], c :: cs)
    else
      let br := takeBody stop cs
      (c :: br.1, br.2)

/-- One `findall` pass of a pattern of the shape
`OPEN\s*(.*?)>>>\s*(.*?)(?=\s*STOP|\Z)` (with `re.DOTALL | re.IGNORECASE`),
as used by `_parse_and_write_plans` (`OPEN = <<<COMPONENT:`, `STOP = <<<`),
`_parse_and_write_feature_plans` (`<<<FEATURE:` / `<<<FEATURE`) and
`_parse_and_write_features_descriptions` (`<<<KEY_FEATURE:` / `<<<KEY_FEATURE`).
`fuel` bounds the recursion; the wrapper passes `s.length + 1`, which is more
than enough since every step consumes at least one character. -/
def scanBlocksAux (openTag stop : Str) : Nat → Str → List (Str × Str)
  | 0, _ => []
  | fuel + 1, s =>
    match splitAtFirstCI openTag s with
    | none => []
    | some (_, rest) =>
      let afterTag := rest.drop openTag.length
      let afterWs := afterTag.dropWhile isWs
      match splitAtFirstCI (lit ">>>") afterWs with
      | none =>
        -- the close token never appears after this occurrence: the regex
        -- engine abandons this start position and retries from the next one
        scanBlocksAux openTag stop fuel (rest.drop 1)
      | some (name, rest2) =>
        let afterClose := rest2.drop 3
        let bodyStart := afterClose.dropWhile isWs
        let br := takeBody stop bodyStart
        (name, br.1) :: scanBlocksAux openTag stop fuel br.2

/-- Findall of a component-style pattern over the whole input. -/
def scanBlocks (openTag stop : Str) (s : Str) : List (Str × Str) :=
  scanBlocksAux openTag stop (s.length + 1) s

/-- Open delimiter `<<<COMPONENT:` (architect.py `component_pattern`). -/
def componentTag : Str := lit "<<<COMPONENT:"

/-- The `(?=\s*<<<|\Z)` boundary of `component_pattern`. -/
def ltTok : Str := lit "<<<"

/-- Open delimiter `<<<KEY_FEATURE:` (architect.py `feature_pattern` of
`_parse_and_write_features_descriptions`). -/
def keyFeatureTag : Str := lit "<<<KEY_FEATURE:"

/-- The `(?=\s*<<<KEY_FEATURE|\Z)` boundary of that pattern. -/
def keyFeatureStop : Str := lit "<<<KEY_FEATURE"

/-- Open delimiter `<<<FEATURE:` (architect.py `_parse_and_write_feature_plans`). -/
def featureTag : Str := lit "<<<FEATURE:"

/-- The `(?=\s*<<<FEATURE|\Z)` boundary of that pattern. -/
def featureStop : Str := lit "<<<FEATURE"

/-- Literal token of architect.py `integration_pattern = <<<INTEGRATION>>>(.*)`. -/
def integrationTok : Str := lit "<<<INTEGRATION>>>"

/-- Model of `integration_pattern.search(s)`: the capture group of
`<<<INTEGRATION>>>(.*)` with `re.DOTALL` is greedy, so it is everything after
the first occurrence of the token, to the end of the string. -/
def findIntegration (s : Str) : Option Str :=
  match splitAtFirstCI integrationTok s with
  | some (_, rest) => some (rest.drop integrationTok.length)
  | none => none

/-- Python `str.strip()` (ASCII whitespace fragment). -/
def pyStrip (s : Str) : Str :=
  ((s.dropWhile isWs).reverse.dropWhile isWs).reverse

mutual

/-- Model of `re.sub('[^0-9a-zA-Z]+', '_', s)`: collapse every maximal run of
non-alphanumeric characters to a single underscore. Normal state. -/
def collapseA : Str → Str
  | [] => []
  | c :: cs => if c.isAlphanum then c :: collapseA cs else '_' :: collapseB cs

/-- State after emitting `'_'` for a non-alphanumeric run still being skipped. -/
def collapseB : Str → Str
  | [] => []
  | c :: cs => if c.isAlphanum then c :: collapseA cs else collapseB cs

end

/-- Composition `name.strip().lower()` followed by `re.sub('[^0-9a-zA-Z]+', '_', ...)`, the
slug computation of `_parse_and_write_plans` (architect.py lines 594-596).
Note: this function does NOT strip a trailing underscore. -/
def normPlanName (name : Str) : Str :=
  collapseA ((pyStrip name).map Char.toLower)

/-- Python errors raised by the architect parse-and-write functions. -/
inductive PyError where
  /-- Python `ValueError("Could not find any ... delimiters in the AI output.")` -/
  | valueErrorNoDelims
  /-- Python `ValueError("Parsing completed, but no valid ... were extracted to write.")` -/
  | valueErrorNoneWritten
  /-- Python `IndexError` from `feature_id[-1]` / `component_name[-1]` on an empty slug -/
  | indexError
  /-- Python `UnboundLocalError`: `written_files` referenced after a loop that never ran -/
  | unboundLocal
  deriving DecidableEq

/-- Slug computation of `_parse_and_write_features_descriptions` (architect.py
lines 465-469) and of the component loop of `_parse_and_write_feature_plans`
(lines 529-533): `strip().lower()`, collapse non-alphanumerics, then
`if slug[-1] == '_': slug = slug[:-1]`. Indexing `[-1]` raises `IndexError`
when the collapsed slug is empty (the label was empty or all-whitespace). -/
def featureSlug (name : Str) : Except PyError Str :=
  let fid := normPlanName name
  if fid = [] then .error .indexError
  else .ok (if fid.getLast? = some '_' then fid.dropLast else fid)

/-- The per-component step of `_parse_and_write_feature_plans` (architect.py
lines 529-541): slug the label, skip the block when the slug is empty
(`if not component_name: continue`, logged as a warning), otherwise synthesize
the file name `impl_<slug>.md`. -/
def featurePlanComponentStep (name : Str) : Except PyError (Option Str) :=
  match featureSlug name with
  | .error e => .error e
  | .ok slug => if slug = [] then .ok none else .ok (some (lit "impl_" ++ slug ++ lit ".md"))

/-- Python `str.capitalize()` (ASCII fragment): first character uppercased,
the rest lowercased. -/
def pyCapitalize : Str → Str
  | [] => []
  | c :: cs => c.toUpper :: cs.map Char.toLower

/-- Python `s.split('/')`: `"" ↦ [""]`, `"a//b" ↦ ["a", "", "b"]`. -/
def pySplitSlash : Str → List Str
  | [] => [[]]
  | c :: cs =>
    if c = '/' then [] :: pySplitSlash cs
    else
      match pySplitSlash cs with
      | h :: t => (c :: h) :: t
      | [] => [[c]]

/-- Python `s.strip('/')`: drop `'/'` characters from both ends. -/
def stripSlashes (s : Str) : Str :=
  ((s.dropWhile (· == '/')).reverse.dropWhile (· == '/')).reverse

/-- Model of `os.path.join(a, b)` on POSIX for a single pair. -/
def osJoin2 (a b : Str) : Str :=
  if b.head? = some '/' then b
  else if a = [] ∨ a.getLast? = some '/' then a ++ b
  else a ++ '/' :: b

/-- Model of `os.path.join(*parts)` on POSIX (`parts` nonempty in all uses). -/
def osJoinList : List Str → Str
  | [] => []
  | p :: ps => ps.foldl osJoin2 p

/-- Join `base / rel` of pathlib for a relative `rel` (coder.py builds
`full_path = base_path / relative_path_os`): `rel = ""` leaves `base`
unchanged, an absolute `rel` replaces it, otherwise the two are joined. -/
def pathJoin (base rel : Str) : Str :=
  if rel = [] then base
  else if rel.head? = some '/' then rel
  else base ++ '/' :: rel

/-- Full on-disk path the coder write loop targets for the parsed relative
POSIX path `rel`: `base_path / os.path.join(*rel.split('/'))`. -/
def fullPathOf (root rel : Str) : Str :=
  pathJoin root (osJoinList (pySplitSlash rel))

/-- The `..` path segment rejected by the traversal check. -/
def ddSeg : Str := lit ".."

/-- Reasons a parsed `<<<FILENAME: ...>>>` block is dropped by
`CoderAgent._parse_code_blocks` (each is a `logger.warning` in the source). -/
inductive DropReason where
  /-- Warning "Ignoring parsed block with empty filename or code." -/
  | emptyOrNoCode
  /-- Warning "Ignoring parsed block with unsafe path: ..." -/
  | unsafePath
  /-- Warning "Ignoring parsed block with potentially invalid filename (no extension?)" -/
  | noExtension
  deriving DecidableEq

/-- The per-match body of the loop in `CoderAgent._parse_code_blocks`
(coder.py lines 744-770): trim the code, drop blocks with empty
filename/code, strip surrounding `/` from the filename, reject `..` segments
and absolute paths, and apply the extensionless-filename plausibility
heuristic (the allow-list `['.gitignore', 'Dockerfile']` is compared against
the WHOLE cleaned path, not the final segment). Returns the accepted
`(clean_filename, code)` or the drop reason with the path as logged. -/
def codeBlockDecision (filename code : Str) : Except (DropReason × Str) (Str × Str) :=
  let codeS := pyStrip code
  if filename = [] ∨ codeS = [] then .error (.emptyOrNoCode, filename)
  else
    let clean := stripSlashes filename
    let parts := pySplitSlash clean
    if ddSeg ∈ parts ∨ clean.head? = some '/' then .error (.unsafePath, filename)
    else
      if ('.' ∈ parts.getLastD []) ∨ clean = lit ".gitignore" ∨ clean = lit "Dockerfile" then
        .ok (clean, codeS)
      else
        if parts.length = 1 then .ok (clean, codeS)
        else
          if clean.getLast? = some '/' then .ok (clean, codeS)
          else .error (.noExtension, clean)

/-- Python-dict insertion semantics for `files[clean_filename] = code`:
re-assigning an existing key updates the value in place, keeping the key's
original position; a new key is appended. -/
def dictInsert (k v : Str) : List (Str × Str) → List (Str × Str)
  | [] => [(k, v)]
  | (k', v') :: rest => if k' = k then (k, v) :: rest else (k', v') :: dictInsert k v rest

/-- The accumulation loop of `_parse_code_blocks`: run the decision on each
regex match in order, building the `files` dict and the list of warnings. -/
def processGo (acc : List (Str × Str) × List (DropReason × Str)) :
    List (Str × Str) → List (Str × Str) × List (DropReason × Str)
  | [] => acc
  | (f, c) :: ms =>
    match codeBlockDecision f c with
    | .ok (p, code) => processGo (dictInsert p code acc.1, acc.2) ms
    | .error d => processGo (acc.1, acc.2 ++ [d]) ms

/-- Open delimiter `<<<FILENAME:` of the coder pattern. -/
def filenameTag : Str := lit "<<<FILENAME:"

/-- The close of the coder pattern: the literal `\n>>>`. -/
def nlClose : Str := lit "\n>>>"

/-- The backtick character excluded from the `[^\s`]+` filename class. -/
def backtickCh : Char := Char.ofNat 96

/-- Descending positions of `'\n'` within the whitespace run, the order in
which the greedy `\s*` of `\s*\n` backtracks over its literal `\n`. -/
def nlPositionsDesc (run : Str) : List Nat :=
  ((List.range run.length).filter (fun i => run.getD i ' ' == '\n')).reverse

/-- Backtracking over the `\s*\n` split: for each candidate `\n` position (in
the engine's preference order) try to complete `(.*?)\n>>>` lazily; the first
position admitting a close wins. -/
def tryNlSplits (rest2 : Str) : List Nat → Option (Str × Str)
  | [] => none
  | k :: ks =>
    match splitAtFirstCI nlClose (rest2.drop (k + 1)) with
    | some (code, r3) => some (code, r3)
    | none => tryNlSplits rest2 ks

/-- Finditer of the coder pattern
`<<<FILENAME:\s+([^\s`]+)\s*\n(.*?)\n>>>` (with `re.DOTALL | re.IGNORECASE`),
coder.py lines 727-734. On a failed attempt the engine advances the start
position, which lands it at the next occurrence of the open token. -/
def scanFilenameAux : Nat → Str → List (Str × Str)
  | 0, _ => []
  | fuel + 1, s =>
    match splitAtFirstCI filenameTag s with
    | none => []
    | some (_, rest) =>
      let after := rest.drop filenameTag.length
      match after with
      | [] => []
      | a :: _ =>
        if isWs a then
          let afterWs := after.dropWhile isWs
          let fname := afterWs.takeWhile (fun c => !(isWs c) && !(c == backtickCh))
          if fname = [] then scanFilenameAux fuel (rest.drop 1)
          else
            let rest2 := afterWs.drop fname.length
            let run := rest2.takeWhile isWs
            match tryNlSplits rest2 (nlPositionsDesc run) with
            | none => scanFilenameAux fuel (rest.drop 1)
            | some (code, r3) => (fname, code) :: scanFilenameAux fuel (r3.drop nlClose.length)
        else scanFilenameAux fuel (rest.drop 1)

/-- All matches of the coder pattern over the input. -/
def scanFilenameBlocks (s : Str) : List (Str × Str) :=
  scanFilenameAux (s.length + 1) s

/-- Model of `CoderAgent._parse_code_blocks`: scan for `<<<FILENAME: ...>>>` blocks and
filter them through the safety/plausibility checks. First component: the
`files` mapping (insertion-ordered, Python-dict update semantics); second:
the dropped blocks with their warning reasons. -/
def parseCodeBlocks (s : Str) : List (Str × Str) × List (DropReason × Str) :=
  processGo ([], []) (scanFilenameBlocks s)

/-- Per-path behaviour of the filesystem, indexed by target file path:
whether creating the parent directory raises `OSError`, and whether opening/
writing the file raises. -/
structure FsBehavior where
  mkdirFails : Bool
  writeFails : Bool
  deriving DecidableEq

/-- The always-succeeding filesystem. -/
def okFs : Str → FsBehavior := fun _ => ⟨false, false⟩

/-- Observable filesystem history: files actually created (path, content, in
write order) and the paths whose write failed (in `logger.error` order). -/
structure FsLog where
  created : List (Str × Str)
  errors : List Str
  deriving DecidableEq

/-- The empty log. -/
def emptyLog : FsLog := ⟨[], []⟩

/-- Model of `BaseAgent._write_file` (base_agent.py lines 72-80): `os.makedirs` on the
parent then `open`/`write`, with EVERY exception caught and logged inside the
helper — it never raises, and on failure no file is created. -/
def writeFile (fs : Str → FsBehavior) (path content : Str) (log : FsLog) : FsLog :=
  if (fs path).mkdirFails then { log with errors := log.errors ++ [path] }
  else if (fs path).writeFails then { log with errors := log.errors ++ [path] }
  else { log with created := log.created ++ [(path, content)] }

/-- The loop of `CoderAgent._write_code_files` (coder.py lines 778-808): for
each accepted `(relative_path, code)`, build the full path, `mkdir` the parent
(an `OSError` here is caught by the loop's own `except`, which logs and skips
the append), then call `_write_file` (which swallows its own failures), then
append the full path to `written_files_list`. -/
def writeGo (fs : Str → FsBehavior) (root : Str)
    (acc : List Str × FsLog) : List (Str × Str) → List Str × FsLog
  | [] => acc
  | (rel, code) :: files =>
    let full := fullPathOf root rel
    if (fs full).mkdirFails then
      writeGo fs root (acc.1, { acc.2 with errors := acc.2.errors ++ [full] }) files
    else
      writeGo fs root (acc.1 ++ [full], writeFile fs full code acc.2) files

/-- Model of `CoderAgent._write_code_files`: returns the `written_files_list` (the only
report the function produces) together with the filesystem history. -/
def writeCodeFiles (fs : Str → FsBehavior) (root : Str)
    (files : List (Str × Str)) : List Str × FsLog :=
  writeGo fs root ([], emptyLog) files

/-- Component-writing loop of `ArchitectAgent._parse_and_write_plans`
(architect.py lines 598-612): slug the name, skip empty slugs with a warning,
otherwise write `docs/impl_<slug>.md` via `_write_file` (which never raises)
and unconditionally append the path to `written_files`. -/
def plansGo (fs : Str → FsBehavior) (docs : Str)
    (acc : List Str × FsLog) : List (Str × Str) → List Str × FsLog
  | [] => acc
  | (name, content) :: rest =>
    let cname := normPlanName name
    if cname = [] then plansGo fs docs acc rest
    else
      let filePath := osJoin2 docs (lit "impl_" ++ cname ++ lit ".md")
      let pc0 := pyStrip content
      let pc := if pc0.head? = some '#' then pc0
                else lit "# Implementation Plan: " ++ pyCapitalize cname ++ lit "\n\n" ++ pc0
      plansGo fs docs (acc.1 ++ [filePath], writeFile fs filePath pc acc.2) rest

/-- Model of `ArchitectAgent._parse_and_write_plans` (architect.py lines 566-627):
`findall` the components, `search` the integration section, raise
`ValueError` when neither is present, write the component plans then
`docs/integ.md`, and raise `ValueError` when nothing was written. -/
def parseAndWritePlans (fs : Str → FsBehavior) (docs : Str) (s : Str) :
    Except PyError (List Str) × FsLog :=
  let comps := scanBlocks componentTag ltTok s
  let integ := findIntegration s
  if comps = [] ∧ integ = none then (.error .valueErrorNoDelims, emptyLog)
  else
    let acc1 := plansGo fs docs ([], emptyLog) comps
    let acc2 :=
      match integ with
      | some ib =>
        let filePath := osJoin2 docs (lit "integ.md")
        let pc0 := pyStrip ib
        let pc := if pc0.head? = some '#' then pc0 else lit "# Integration Plan\n\n" ++ pc0
        (acc1.1 ++ [filePath], writeFile fs filePath pc acc1.2)
      | none => acc1
    if acc2.1 = [] then (.error .valueErrorNoneWritten, acc2.2) else (.ok acc2.1, acc2.2)

/-- Loop of `ArchitectAgent._parse_and_write_features_descriptions`
(architect.py lines 464-487). `written_files` is re-initialized to `[]` on
EVERY iteration (the accumulator-reset in the source), so the running value is
threaded as `Option (List Str)`: `none` while the loop has not yet run (the
variable is unbound). Each iteration computes the slug (raising `IndexError`
on an empty one), resets `written_files`, skips raw-empty names, writes
`feature_<slug>.md` wrapped in the `<<<KEY_FEATURE: ...>>>` header, and
appends the single path. -/
def featsLoop (fs : Str → FsBehavior) (docs : Str) :
    List (Str × Str) → Option (List Str) → FsLog → Except PyError (Option (List Str)) × FsLog
  | [], w, log => (.ok w, log)
  | (name, body) :: rest, _, log =>
    match featureSlug name with
    | .error e => (.error e, log)
    | .ok fid =>
      if name = [] then featsLoop fs docs rest (some []) log
      else
        let filePath := osJoin2 docs (lit "feature_" ++ fid ++ lit ".md")
        let content := lit "<<<KEY_FEATURE: `" ++ name ++ lit "` ID: id_" ++ fid
                         ++ lit " \n\n" ++ pyStrip body ++ lit "\n\n>>>"
        featsLoop fs docs rest (some [filePath]) (writeFile fs filePath content log)

/-- Model of `ArchitectAgent._parse_and_write_features_descriptions` (architect.py
lines 447-492): `findall` the `<<<KEY_FEATURE: ...>>>` blocks and run the
loop; afterwards `if not written_files` raises — `UnboundLocalError` when the
loop never ran (so the name is unbound), `ValueError` when it is empty. -/
def parseFeaturesDescriptions (fs : Str → FsBehavior) (docs : Str) (s : Str) :
    Except PyError (List Str) × FsLog :=
  match featsLoop fs docs (scanBlocks keyFeatureTag keyFeatureStop s) none emptyLog with
  | (.error e, log) => (.error e, log)
  | (.ok none, log) => (.error .unboundLocal, log)
  | (.ok (some []), log) => (.error .valueErrorNoneWritten, log)
  | (.ok (some w), log) => (.ok w, log)

/-- A stop pattern whose first character never case-insensitively matches a
whitespace character (true of every `<<<...` boundary token). -/
def stopHeadOk (stop : Str) : Prop :=
  ∃ c0 rest0, stop = c0 :: rest0 ∧ ∀ c, isWs c = true → charEqCI c0 c = false

/-- A parsed artifact path neither contains a `..` segment nor is absolute. -/
def safeEntry (e : Str × Str) : Prop :=
  ddSeg ∉ pySplitSlash e.1 ∧ e.1.head? ≠ some '/'

deriving instance DecidableEq for Except

theorem startsWithCI_append (pat : Str) :
    ∀ l t, startsWithCI pat l = true → startsWithCI pat (l ++ t) = true := by
  induction pat with
  | nil => intro l t _; rfl
  | cons p ps ih =>
    intro l t h
    cases l with
    | nil => simp [startsWithCI] at h
    | cons c cs =>
      simp only [startsWithCI, Bool.and_eq_true, List.cons_append] at h ⊢
      exact ⟨h.1, ih cs t h.2⟩

theorem splitAtFirstCI_eq_append (pat : Str) :
    ∀ s b r, splitAtFirstCI pat s = some (b, r) → b ++ r = s := by
  intro s
  induction s with
  | nil =>
    intro b r h
    unfold splitAtFirstCI at h
    split at h
    · simp only [Option.some.injEq, Prod.mk.injEq] at h
      simp [← h.1, ← h.2]
    · exact absurd h (by simp)
  | cons c cs ih =>
    intro b r h
    unfold splitAtFirstCI at h
    split at h
    · simp only [Option.some.injEq, Prod.mk.injEq] at h
      simp [← h.1, ← h.2]
    · split at h
      · rename_i b' r' hrec
        simp only [Option.some.injEq, Prod.mk.injEq] at h
        obtain ⟨hb, hr⟩ := h
        subst hb; subst hr
        simpa using ih b' r' hrec
      · exact absurd h (by simp)

theorem splitAtFirstCI_before_clean (pat : Str) :
    ∀ s b r, splitAtFirstCI pat s = some (b, r) → containsTokCI pat b = false := by
  intro s
  induction s with
  | nil =>
    intro b r h
    unfold splitAtFirstCI at h
    split at h
    · simp only [Option.some.injEq, Prod.mk.injEq] at h
      simp [← h.1, containsTokCI]
    · exact absurd h (by simp)
  | cons c cs ih =>
    intro b r h
    unfold splitAtFirstCI at h
    split at h
    · simp only [Option.some.injEq, Prod.mk.injEq] at h
      simp [← h.1, containsTokCI]
    · rename_i hguard
      split at h
      · rename_i b' r' hrec
        simp only [Option.some.injEq, Prod.mk.injEq] at h
        obtain ⟨hb, hr⟩ := h
        subst hb; subst hr
        simp only [containsTokCI, Bool.or_eq_false_iff]
        refine ⟨?_, ih b' r' hrec⟩
        by_contra hsw
        rw [Bool.not_eq_false] at hsw
        have hb' : (c :: b') ++ r' = c :: cs := by
          simpa using splitAtFirstCI_eq_append pat cs b' r' hrec
        have := startsWithCI_append pat (c :: b') r' hsw
        rw [hb'] at this
        exact absurd this (by simpa using hguard)
      · exact absurd h (by simp)

theorem takeBody_eq_append (stop : Str) :
    ∀ s, (takeBody stop s).1 ++ (takeBody stop s).2 = s := by
  intro s
  induction s with
  | nil => rfl
  | cons c cs ih =>
    unfold takeBody
    split
    · rfl
    · simpa using ih

theorem isWs_charEqCI_lt : ∀ c, isWs c = true → charEqCI '<' c = false := by
  intro c h
  unfold isWs at h
  simp only [Bool.or_eq_true, beq_iff_eq] at h
  rcases h with (((((h|h)|h)|h)|h)|h) <;> subst h <;> decide

theorem takeBody_clean (stop : Str) (h : stopHeadOk stop) :
    ∀ s, containsTokCI stop (takeBody stop s).1 = false := by
  intro s
  induction s with
  | nil => rfl
  | cons c cs ih =>
    unfold takeBody
    split
    · rfl
    · rename_i hguard
      simp only [containsTokCI, Bool.or_eq_false_iff]
      refine ⟨?_, ih⟩
      by_contra hsw
      rw [Bool.not_eq_false] at hsw
      obtain ⟨c0, rest0, hstop, hni⟩ := h
      have hcws : isWs c = false := by
        by_contra hws
        rw [Bool.not_eq_false] at hws
        rw [hstop] at hsw
        simp only [startsWithCI, Bool.and_eq_true] at hsw
        rw [hni c hws] at hsw
        exact absurd hsw.1 (by simp)
      have happ : (c :: (takeBody stop cs).1) ++ (takeBody stop cs).2 = c :: cs := by
        simpa using takeBody_eq_append stop cs
      have hsw2 := startsWithCI_append stop _ ((takeBody stop cs).2) hsw
      rw [happ] at hsw2
      rw [List.dropWhile_cons_of_neg (by simp [hcws])] at hguard
      exact absurd hsw2 (by simpa using hguard)

theorem ltTok_headOk : stopHeadOk ltTok :=
  ⟨'<', ['<', '<'], rfl, isWs_charEqCI_lt⟩

theorem keyFeatureStop_headOk : stopHeadOk keyFeatureStop :=
  ⟨'<', (lit "<<KEY_FEATURE"), rfl, isWs_charEqCI_lt⟩

theorem featureStop_headOk : stopHeadOk featureStop :=
  ⟨'<', (lit "<<FEATURE"), rfl, isWs_charEqCI_lt⟩

theorem scanBlocksAux_body_clean (openTag stop : Str) (h : stopHeadOk stop) :
    ∀ fuel s n b, (n, b) ∈ scanBlocksAux openTag stop fuel s →
      containsTokCI stop b = false := by
  intro fuel
  induction fuel with
  | zero => intro s n b hmem; exact absurd hmem (by simp [scanBlocksAux])
  | succ fuel ih =>
    intro s n b hmem
    unfold scanBlocksAux at hmem
    split at hmem
    · exact absurd hmem (by simp)
    · dsimp only at hmem
      split at hmem
      · exact ih _ n b hmem
      · rcases List.mem_cons.mp hmem with heq | htail
        · rw [Prod.mk.injEq] at heq
          rw [heq.2]
          exact takeBody_clean stop h _
        · exact ih _ n b htail

theorem tryNlSplits_clean :
    ∀ ks rest2 code r3, tryNlSplits rest2 ks = some (code, r3) →
      containsTokCI nlClose code = false := by
  intro ks
  induction ks with
  | nil => intro rest2 code r3 h; exact absurd h (by simp [tryNlSplits])
  | cons k ks ih =>
    intro rest2 code r3 h
    unfold tryNlSplits at h
    split at h
    · rename_i b' r' hrec
      simp only [Option.some.injEq, Prod.mk.injEq] at h
      obtain ⟨hb, hr⟩ := h
      subst hb; subst hr
      exact splitAtFirstCI_before_clean nlClose _ b' r' hrec
    · exact ih rest2 code r3 h

theorem scanFilenameAux_body_clean :
    ∀ fuel s n b, (n, b) ∈ scanFilenameAux fuel s → containsTokCI nlClose b = false := by
  intro fuel
  induction fuel with
  | zero => intro s n b hmem; exact absurd hmem (by simp [scanFilenameAux])
  | succ fuel ih =>
    intro s n b hmem
    unfold scanFilenameAux at hmem
    split at hmem
    · exact absurd hmem (by simp)
    · dsimp only at hmem
      split at hmem
      · exact absurd hmem (by simp)
      · split at hmem
        · split at hmem
          · exact ih _ n b hmem
          · split at hmem
            · exact ih _ n b hmem
            · rename_i code r3 htry
              rcases List.mem_cons.mp hmem with heq | htail
              · rw [Prod.mk.injEq] at heq
                rw [heq.2]
                exact tryNlSplits_clean _ _ code r3 htry
              · exact ih _ n b htail
        · exact ih _ n b hmem

theorem writeGo_spec (fs : Str → FsBehavior) (root : Str) :
    ∀ files written0 log0,
      writeGo fs root (written0, log0) files =
        (written0 ++
           (files.filter (fun e => !(fs (fullPathOf root e.1)).mkdirFails)).map
             (fun e => fullPathOf root e.1),
         ⟨log0.created ++
            (files.filter (fun e =>
               !(fs (fullPathOf root e.1)).mkdirFails
                 && !(fs (fullPathOf root e.1)).writeFails)).map
              (fun e => (fullPathOf root e.1, e.2)),
          log0.errors ++
            (files.filter (fun e =>
               (fs (fullPathOf root e.1)).mkdirFails
                 || (fs (fullPathOf root e.1)).writeFails)).map
              (fun e => fullPathOf root e.1)⟩) := by
  intro files
  induction files with
  | nil => intro written0 log0; simp [writeGo]
  | cons e files ih =>
    intro written0 log0
    obtain ⟨rel, code⟩ := e
    by_cases hm : (fs (fullPathOf root rel)).mkdirFails
    · simp only [writeGo, hm, if_pos]
      rw [ih]
      simp [hm, List.filter_cons, List.append_assoc]
    · by_cases hw : (fs (fullPathOf root rel)).writeFails
      · simp only [writeGo, hm, if_neg, writeFile, if_pos hw]
        rw [if_neg (by simp [hm])]
        rw [ih]
        simp [hm, hw, List.filter_cons, List.append_assoc]
      · simp only [writeGo, writeFile]
        rw [if_neg (by simp [hm]), if_neg (by simp [hm]), if_neg (by simp [hw])]
        rw [ih]
        simp [hm, hw, List.filter_cons, List.append_assoc]

theorem dictInsert_mem (k v : Str) :
    ∀ l p c, (p, c) ∈ dictInsert k v l → (p = k ∧ c = v) ∨ (p, c) ∈ l := by
  intro l
  induction l with
  | nil =>
    intro p c h
    simp only [dictInsert, List.mem_singleton, Prod.mk.injEq] at h
    exact Or.inl h
  | cons e l ih =>
    intro p c h
    obtain ⟨k', v'⟩ := e
    unfold dictInsert at h
    split at h
    · rcases List.mem_cons.mp h with heq | htail
      · rw [Prod.mk.injEq] at heq
        exact Or.inl heq
      · exact Or.inr (List.mem_cons_of_mem _ htail)
    · rcases List.mem_cons.mp h with heq | htail
      · exact Or.inr (heq ▸ List.mem_cons_self _ _)
      · rcases ih p c htail with hkv | hmem
        · exact Or.inl hkv
        · exact Or.inr (List.mem_cons_of_mem _ hmem)

theorem codeBlockDecision_ok_safe (f c p q : Str)
    (h : codeBlockDecision f c = .ok (p, q)) : safeEntry (p, q) := by
  simp only [codeBlockDecision] at h
  split at h
  · exact absurd h (by simp)
  · split at h
    · exact absurd h (by simp)
    · rename_i hsafe
      push_neg at hsafe
      have hok : ∀ (h2 : (Except.ok (stripSlashes f, pyStrip c) :
          Except (DropReason × Str) (Str × Str)) = .ok (p, q)), safeEntry (p, q) := by
        intro h2
        simp only [Except.ok.injEq, Prod.mk.injEq] at h2
        obtain ⟨hp, -⟩ := h2
        exact ⟨hp ▸ hsafe.1, hp ▸ hsafe.2⟩
      split at h
      · exact hok h
      · split at h
        · exact hok h
        · split at h
          · exact hok h
          · exact absurd h (by simp)

theorem processGo_safe :
    ∀ ms acc, (∀ e ∈ acc.1, safeEntry e) → ∀ e ∈ (processGo acc ms).1, safeEntry e := by
  intro ms
  induction ms with
  | nil => intro acc hacc e he; exact hacc e he
  | cons m ms ih =>
    intro acc hacc e he
    obtain ⟨f, c⟩ := m
    unfold processGo at he
    split at he
    · rename_i p code hdec
      refine ih _ ?_ e he
      intro e' he'
      obtain ⟨p', c'⟩ := e'
      rcases dictInsert_mem p code acc.1 p' c' he' with ⟨hp, hc⟩ | hmem
      · subst hp; subst hc
        exact codeBlockDecision_ok_safe f c p' c' hdec
      · exact hacc _ hmem
    · rename_i d hdec
      exact ih (acc.1, acc.2 ++ [d]) hacc e he

theorem head?_dropWhile_ne (p : Char → Bool) :
    ∀ (l : List Char) (c : Char), (List.dropWhile p l).head? = some c → p c = false := by
  intro l
  induction l with
  | nil => intro c h; exact absurd h (by simp)
  | cons a l ih =>
    intro c h
    by_cases hp : p a
    · rw [List.dropWhile_cons_of_pos hp] at h
      exact ih c h
    · rw [List.dropWhile_cons_of_neg hp] at h
      simp only [List.head?_cons, Option.some.injEq] at h
      rw [← h]
      simpa using hp

theorem stripSlashes_not_endSlash (f : Str) : (stripSlashes f).getLast? ≠ some '/' := by
  intro h
  unfold stripSlashes at h
  rw [List.getLast?_reverse] at h
  have := head?_dropWhile_ne (· == '/') _ _ h
  simp at this

theorem normPlanName_nil : normPlanName [] = [] := rfl

theorem featureSlug_of_good (name : Str) (h : normPlanName name ≠ []) :
    featureSlug name =
      .ok (if (normPlanName name).getLast? = some '_' then
             (normPlanName name).dropLast
           else normPlanName name) := by
  simp only [featureSlug]
  rw [if_neg h]

theorem featsLoop_okFs (docs : Str) :
    ∀ bs (w : Option (List Str)) (log : FsLog) nlast blast,
      bs.getLast? = some (nlast, blast) →
      (∀ nb ∈ bs, normPlanName nb.1 ≠ []) →
      ∃ fid log',
        featureSlug nlast = .ok fid ∧
        featsLoop okFs docs bs w log =
          (.ok (some [osJoin2 docs (lit "feature_" ++ fid ++ lit ".md")]), log') ∧
        log'.created.length = log.created.length + bs.length := by
  intro bs
  induction bs with
  | nil => intro w log nlast blast h _; exact absurd h (by simp)
  | cons x bs ih =>
    intro w log nlast blast hlast hgood
    obtain ⟨name, body⟩ := x
    have hname : normPlanName name ≠ [] := hgood (name, body) (List.mem_cons_self _ _)
    have hne : name ≠ [] := fun hnil => hname (hnil ▸ normPlanName_nil)
    have hstep : featsLoop okFs docs ((name, body) :: bs) w log =
        featsLoop okFs docs bs
          (some [osJoin2 docs (lit "feature_" ++
             (if (normPlanName name).getLast? = some '_' then
                (normPlanName name).dropLast else normPlanName name) ++ lit ".md")])
          { log with created := log.created ++
              [(osJoin2 docs (lit "feature_" ++
                  (if (normPlanName name).getLast? = some '_' then
                     (normPlanName name).dropLast else normPlanName name) ++ lit ".md"),
                lit "<<<KEY_FEATURE: `" ++ name ++ lit "` ID: id_" ++
                  (if (normPlanName name).getLast? = some '_' then
                     (normPlanName name).dropLast else normPlanName name)
                  ++ lit " \n\n" ++ pyStrip body ++ lit "\n\n>>>")] } := by
      simp only [featsLoop]
      rw [featureSlug_of_good name hname]
      simp only [if_neg hne]
      simp [writeFile, okFs]
    cases bs with
    | nil =>
      have hl : some (name, body) = some (nlast, blast) := hlast
      simp only [Option.some.injEq, Prod.mk.injEq] at hl
      obtain ⟨hn, -⟩ := hl
      subst hn
      rw [hstep]
      exact ⟨_, _, featureSlug_of_good name hname, rfl, by simp⟩
    | cons y bs' =>
      have hlast' : (y :: bs').getLast? = some (nlast, blast) := by
        rw [← hlast]; exact (List.getLast?_cons_cons ..).symm
      have hgood' : ∀ nb ∈ y :: bs', normPlanName nb.1 ≠ [] := by
        intro nb hnb; exact hgood nb (List.mem_cons_of_mem _ hnb)
      obtain ⟨fid, log', hslug, heq, hlen⟩ :=
        ih (some [osJoin2 docs (lit "feature_" ++
              (if (normPlanName name).getLast? = some '_' then
                 (normPlanName name).dropLast else normPlanName name) ++ lit ".md")])
           ({ log with created := log.created ++
              [(osJoin2 docs (lit "feature_" ++
                  (if (normPlanName name).getLast? = some '_' then
                     (normPlanName name).dropLast else normPlanName name) ++ lit ".md"),
                lit "<<<KEY_FEATURE: `" ++ name ++ lit "` ID: id_" ++
                  (if (normPlanName name).getLast? = some '_' then
                     (normPlanName name).dropLast else normPlanName name)
                  ++ lit " \n\n" ++ pyStrip body ++ lit "\n\n>>>")] })
           nlast blast hlast' hgood'
      refine ⟨fid, log', hslug, ?_, ?_⟩
      · rw [hstep, heq]
      · simp only [List.length_append, List.length_cons, List.length_nil] at hlen ⊢
        omega

/-- C1 counterexample: the claim asserts that a block whose label is an
absolute path is excluded from the written files, that no write is attempted
for it, and that it is reported as failed. On the input
`<<<FILENAME: /etc/passwd.txt ...>>>` the code instead strips the leading `/`
(`filename.strip('/')`), accepts the path as the relative `etc/passwd.txt`,
attempts the write, reports it as written, and reports nothing as failed. -/
theorem C1_counterexample :
    (parseCodeBlocks (lit "<<<FILENAME: /etc/passwd.txt\nX\n>>>")).1 =
        [(lit "etc/passwd.txt", lit "X")]
      ∧ (writeCodeFiles okFs (lit "/project")
           (parseCodeBlocks (lit "<<<FILENAME: /etc/passwd.txt\nX\n>>>")).1).1 =
          [lit "/project/etc/passwd.txt"]
      ∧ (parseCodeBlocks (lit "<<<FILENAME: /etc/passwd.txt\nX\n>>>")).2 = [] := by
  refine ⟨by decide, by decide, by decide⟩

/-- C1 amended: (1) a decoded block whose cleaned label contains a `..`
segment is rejected by `_parse_code_blocks` with the "unsafe path" warning, so
it never reaches the write loop and no write is attempted for it; (2) every
artifact path that survives parsing has no `..` segment and is not absolute;
(3) every file `_write_code_files` creates sits at `project_root / rel` for
such a parsed relative path `rel` — so materialization never creates an entry
outside the project root. Absolute labels, however, are not excluded: their
leading `/` is stripped and they are written (inside the root) rather than
reported as failed. -/
theorem C1_amended :
    (∀ f c, f ≠ [] → pyStrip c ≠ [] → ddSeg ∈ pySplitSlash (stripSlashes f) →
       codeBlockDecision f c = .error (.unsafePath, f))
    ∧ (∀ s p c, (p, c) ∈ (parseCodeBlocks s).1 →
         ddSeg ∉ pySplitSlash p ∧ p.head? ≠ some '/')
    ∧ (∀ (fs : Str → FsBehavior) (root : Str) s path content,
         (path, content) ∈ (writeCodeFiles fs root (parseCodeBlocks s).1).2.created →
         ∃ rel, (rel, content) ∈ (parseCodeBlocks s).1 ∧
           ddSeg ∉ pySplitSlash rel ∧ rel.head? ≠ some '/' ∧
           path = fullPathOf root rel) := by
  refine ⟨?_, ?_, ?_⟩
  · intro f c hf hc hdd
    simp only [codeBlockDecision]
    rw [if_neg (by simp [hf, hc]), if_pos (Or.inl hdd)]
  · intro s p c hmem
    exact processGo_safe (scanFilenameBlocks s) ([], []) (by simp) (p, c) hmem
  · intro fs root s path content hmem
    unfold writeCodeFiles at hmem
    rw [writeGo_spec] at hmem
    simp only [emptyLog, List.nil_append] at hmem
    obtain ⟨e, hef, heq⟩ := List.mem_map.mp hmem
    obtain ⟨hmem', -⟩ := List.mem_filter.mp hef
    rw [Prod.mk.injEq] at heq
    have hsafe : safeEntry e :=
      processGo_safe (scanFilenameBlocks s) ([], []) (by simp) e hmem'
    refine ⟨e.1, ?_, hsafe.1, hsafe.2, heq.1.symm⟩
    rw [← heq.2]
    simpa using hmem'

/-- C1 witness: the `..` rejection branch at a concrete traversal label. -/
theorem C1_amended_witness :
    codeBlockDecision (lit "../x.txt") (lit "y") = .error (.unsafePath, lit "../x.txt") :=
  C1_amended.1 (lit "../x.txt") (lit "y") (by decide) (by decide) (by decide)

/-- C2 counterexample: on an input holding three well-formed blocks
(`COMPONENT a`, `INTEGRATION`, `COMPONENT b`), the decoded INTEGRATION body —
captured by the regex `<<<INTEGRATION>>>(.*)` with `re.DOTALL`, greedy to end
of string — contains the ENTIRE following block, delimiter and body, even
though another boundary exists. -/
theorem C2_counterexample :
    findIntegration (lit "<<<COMPONENT: a>>>\nA\n<<<INTEGRATION>>>\nI\n<<<COMPONENT: b>>>\nB") =
        some (lit "\nI\n<<<COMPONENT: b>>>\nB")
      ∧ containsTokCI (lit "<<<COMPONENT: b>>>\nB")
          ((findIntegration (lit "<<<COMPONENT: a>>>\nA\n<<<INTEGRATION>>>\nI\n<<<COMPONENT: b>>>\nB")).getD [])
          = true
      ∧ (lit "b", lit "B") ∈
          scanBlocks componentTag ltTok
            (lit "<<<COMPONENT: a>>>\nA\n<<<INTEGRATION>>>\nI\n<<<COMPONENT: b>>>\nB") := by
  refine ⟨by decide, by decide, by decide⟩

/-- C2 amended: every block decoded by one of the `findall` grammars
(`COMPONENT`, `KEY_FEATURE`, `FEATURE`, `FILENAME`) has a body that never
contains its grammar's next-boundary token — extraction there is greedy only
to the next boundary, so such a body cannot swallow the following block. The
exception forced by the counterexample is the INTEGRATION section: its capture
`<<<INTEGRATION>>>(.*)` extends greedily to end-of-string, including any
blocks that follow it. -/
theorem C2_amended :
    (∀ s n b, (n, b) ∈ scanBlocks componentTag ltTok s → containsTokCI ltTok b = false)
    ∧ (∀ s n b, (n, b) ∈ scanBlocks keyFeatureTag keyFeatureStop s →
         containsTokCI keyFeatureStop b = false)
    ∧ (∀ s n b, (n, b) ∈ scanBlocks featureTag featureStop s →
         containsTokCI featureStop b = false)
    ∧ (∀ s n b, (n, b) ∈ scanFilenameBlocks s → containsTokCI nlClose b = false)
    ∧ (∀ s pre rest, splitAtFirstCI integrationTok s = some (pre, rest) →
         findIntegration s = some (rest.drop integrationTok.length)) := by
  refine ⟨?_, ?_, ?_, ?_, ?_⟩
  · intro s n b hmem
    exact scanBlocksAux_body_clean componentTag ltTok ltTok_headOk _ s n b hmem
  · intro s n b hmem
    exact scanBlocksAux_body_clean keyFeatureTag keyFeatureStop keyFeatureStop_headOk _ s n b hmem
  · intro s n b hmem
    exact scanBlocksAux_body_clean featureTag featureStop featureStop_headOk _ s n b hmem
  · intro s n b hmem
    exact scanFilenameAux_body_clean _ s n b hmem
  · intro s pre rest h
    unfold findIntegration
    rw [h]

/-- C2 witness: a decoded component body on a two-block input is free of the
`<<<` boundary token. -/
theorem C2_amended_witness : containsTokCI ltTok (lit "P") = false :=
  C2_amended.1 (lit "<<<COMPONENT: a>>>\nP\n<<<COMPONENT: b>>>\nQ") (lit "a") (lit "P")
    (by decide)

/-- C3 counterexample: the claim says decoding never raises on malformed or
empty input (only on an unknown grammar variant). But
`_parse_and_write_plans` — a cited decode path — raises
`ValueError("Could not find any ... delimiters")` on the empty string. -/
theorem C3_counterexample :
    (parseAndWritePlans okFs (lit "docs") []).1 = .error .valueErrorNoDelims := by
  decide

/-- C3 amended: the regex extraction itself is total and returns an empty
sequence on the empty string for every grammar, and `_parse_code_blocks`
returns an empty mapping without raising; but the architect's combined
parse-and-write functions do raise on degenerate input: `ValueError` when no
delimiter is found, `UnboundLocalError` in
`_parse_and_write_features_descriptions` when zero blocks are extracted (its
`written_files` accumulator is only created inside the loop), and
`IndexError` there when a `KEY_FEATURE` label normalizes to the empty slug. -/
theorem C3_amended :
    scanBlocks componentTag ltTok [] = []
      ∧ scanBlocks keyFeatureTag keyFeatureStop [] = []
      ∧ scanBlocks featureTag featureStop [] = []
      ∧ scanFilenameBlocks [] = []
      ∧ findIntegration [] = none
      ∧ parseCodeBlocks [] = ([], [])
      ∧ (parseAndWritePlans okFs (lit "docs") []).1 = .error .valueErrorNoDelims
      ∧ (parseFeaturesDescriptions okFs (lit "docs") []).1 = .error .unboundLocal
      ∧ (parseFeaturesDescriptions okFs (lit "docs") (lit "<<<KEY_FEATURE: >>>x")).1 =
          .error .indexError := by
  refine ⟨by decide, by decide, by decide, by decide, by decide, by decide, by decide,
    by decide, by decide⟩

/-- C4 counterexample: the claim says an artifact whose file write fails with
an OS-level error is recorded in the failed part of the report and absent from
the written part. In the code, `_write_file` swallows the open/write failure
internally, so `_write_code_files` still appends the path to
`written_files_list` — the failed artifact IS reported as written (and no file
is created); the function returns no failed list at all. -/
theorem C4_counterexample :
    (writeCodeFiles
        (fun p => if p = lit "/r/a.txt" then ⟨false, true⟩ else ⟨false, false⟩)
        (lit "/r") [(lit "a.txt", lit "x")]).1 = [lit "/r/a.txt"]
      ∧ (writeCodeFiles
          (fun p => if p = lit "/r/a.txt" then ⟨false, true⟩ else ⟨false, false⟩)
          (lit "/r") [(lit "a.txt", lit "x")]).2.created = []
      ∧ (writeCodeFiles
          (fun p => if p = lit "/r/a.txt" then ⟨false, true⟩ else ⟨false, false⟩)
          (lit "/r") [(lit "a.txt", lit "x")]).2.errors = [lit "/r/a.txt"] := by
  refine ⟨by decide, by decide, by decide⟩

/-- C4 amended: the materializer indeed never raises for a per-file failure
and failures are logged per artifact, but there is no failed component in its
report. Complete characterization of `_write_code_files` for every filesystem
behaviour: the returned written list contains exactly the artifacts whose
parent-directory creation succeeded — including those whose file write then
failed; a file is created exactly when both steps succeed; the error log
records exactly the artifacts for which either step failed. -/
theorem C4_amended :
    ∀ (fs : Str → FsBehavior) (root : Str) (files : List (Str × Str)),
      (writeCodeFiles fs root files).1 =
          (files.filter (fun e => !(fs (fullPathOf root e.1)).mkdirFails)).map
            (fun e => fullPathOf root e.1)
        ∧ (writeCodeFiles fs root files).2.created =
            (files.filter (fun e =>
               !(fs (fullPathOf root e.1)).mkdirFails
                 && !(fs (fullPathOf root e.1)).writeFails)).map
              (fun e => (fullPathOf root e.1, e.2))
        ∧ (writeCodeFiles fs root files).2.errors =
            (files.filter (fun e =>
               (fs (fullPathOf root e.1)).mkdirFails
                 || (fs (fullPathOf root e.1)).writeFails)).map
              (fun e => fullPathOf root e.1) := by
  intro fs root files
  unfold writeCodeFiles
  rw [writeGo_spec]
  simp [emptyLog]

/-- C5 counterexample: the claim says every name-style label is normalized
with a trailing underscore strip, so "My Cool Component!!" becomes
`my_cool_component`. `_parse_and_write_plans` performs no trailing strip: the
block is written as `impl_my_cool_component_.md`. -/
theorem C5_counterexample :
    (parseAndWritePlans okFs (lit "docs")
        (lit "<<<COMPONENT: My Cool Component!!>>>\nbody")).1 =
        .ok [lit "docs/impl_my_cool_component_.md"]
      ∧ normPlanName (lit "My Cool Component!!") ≠ lit "my_cool_component" := by
  refine ⟨by decide, by decide⟩

/-- C5 amended: lowercasing and collapsing non-alphanumeric runs to a single
underscore happen in every name-style grammar, but the trailing-underscore
strip and the empty-slug drop are not uniform: `_parse_and_write_feature_plans`
strips the trailing underscore ("My Cool Component!!" → `my_cool_component`)
and drops a `"---"` label (empty slug) with a warning;
`_parse_and_write_plans` keeps the trailing underscore
("My Cool Component!!" → `my_cool_component_`) and writes a `"---"` block to
`impl__.md`; `_parse_and_write_features_descriptions` tests the raw name
instead of the slug, so its `"---"` block is written to `feature_.md` rather
than dropped. -/
theorem C5_amended :
    normPlanName (lit "My Cool Component!!") = lit "my_cool_component_"
      ∧ featureSlug (lit "My Cool Component!!") = .ok (lit "my_cool_component")
      ∧ featurePlanComponentStep (lit "My Cool Component!!") =
          .ok (some (lit "impl_my_cool_component.md"))
      ∧ featurePlanComponentStep (lit "---") = .ok none
      ∧ (parseAndWritePlans okFs (lit "docs") (lit "<<<COMPONENT: --->>>\nbody")).1 =
          .ok [lit "docs/impl__.md"]
      ∧ (parseFeaturesDescriptions okFs (lit "docs") (lit "<<<KEY_FEATURE: --->>>\nbody")).1 =
          .ok [lit "docs/feature_.md"] := by
  refine ⟨by decide, by decide, by decide, by decide, by decide, by decide⟩

/-- C6: on the spec's end-to-end example input, the `ComponentIntegration`
decode yields exactly the three blocks with trimmed bodies
(`backend → "# Plan\nDo X"`, `frontend → "# Plan\nDo Y"`,
integration → `"# Integ\nZ"`), and materializing writes exactly
`docs/impl_backend.md`, `docs/impl_frontend.md`, `docs/integ.md` in that
order, with those bodies as content and no failures. -/
theorem C6_example :
    scanBlocks componentTag ltTok
        (lit "<<<COMPONENT: backend>>>\n# Plan\nDo X\n\n<<<COMPONENT: frontend>>>\n# Plan\nDo Y\n\n<<<INTEGRATION>>>\n# Integ\nZ") =
        [(lit "backend", lit "# Plan\nDo X"), (lit "frontend", lit "# Plan\nDo Y")]
      ∧ (findIntegration
          (lit "<<<COMPONENT: backend>>>\n# Plan\nDo X\n\n<<<COMPONENT: frontend>>>\n# Plan\nDo Y\n\n<<<INTEGRATION>>>\n# Integ\nZ")).map pyStrip =
          some (lit "# Integ\nZ")
      ∧ parseAndWritePlans okFs (lit "docs")
          (lit "<<<COMPONENT: backend>>>\n# Plan\nDo X\n\n<<<COMPONENT: frontend>>>\n# Plan\nDo Y\n\n<<<INTEGRATION>>>\n# Integ\nZ") =
          (.ok [lit "docs/impl_backend.md", lit "docs/impl_frontend.md", lit "docs/integ.md"],
           ⟨[(lit "docs/impl_backend.md", lit "# Plan\nDo X"),
             (lit "docs/impl_frontend.md", lit "# Plan\nDo Y"),
             (lit "docs/integ.md", lit "# Integ\nZ")], []⟩) := by
  refine ⟨by decide, by decide, by decide⟩

/-- C7: partial-failure isolation in `_write_code_files`. If the artifact `k`
in the middle of the batch fails (its parent-directory creation raises, the
caught `OSError` of the loop), every later artifact is still attempted: each
later artifact whose directory creation succeeds appears in the written list,
and if its file write also succeeds the file is created on disk. One failure
never aborts the remainder of the batch. -/
theorem C7_partial_failure :
    ∀ (fs : Str → FsBehavior) (root : Str) (pre : List (Str × Str)) (k : Str × Str)
      (post : List (Str × Str)),
      (fs (fullPathOf root k.1)).mkdirFails = true →
      ∀ a ∈ post, (fs (fullPathOf root a.1)).mkdirFails = false →
        fullPathOf root a.1 ∈ (writeCodeFiles fs root (pre ++ k :: post)).1 ∧
        ((fs (fullPathOf root a.1)).writeFails = false →
          (fullPathOf root a.1, a.2) ∈ (writeCodeFiles fs root (pre ++ k :: post)).2.created) := by
  intro fs root pre k post _ a ha hmk
  unfold writeCodeFiles
  rw [writeGo_spec]
  constructor
  · simp only [emptyLog, List.nil_append]
    exact List.mem_map.mpr
      ⟨a, List.mem_filter.mpr
        ⟨List.mem_append_right _ (List.mem_cons_of_mem _ ha), by simp [hmk]⟩, rfl⟩
  · intro hw
    simp only [emptyLog, List.nil_append]
    exact List.mem_map.mpr
      ⟨a, List.mem_filter.mpr
        ⟨List.mem_append_right _ (List.mem_cons_of_mem _ ha), by simp [hmk, hw]⟩, rfl⟩

/-- C7 witness: a three-artifact batch whose middle artifact fails; the third
is still written and created. -/
theorem C7_partial_failure_witness :
    fullPathOf (lit "/r") (lit "c.txt") ∈
        (writeCodeFiles
          (fun p => if p = lit "/r/b.txt" then ⟨true, false⟩ else ⟨false, false⟩)
          (lit "/r")
          ([(lit "a.txt", lit "1")] ++ (lit "b.txt", lit "2") :: [(lit "c.txt", lit "3")])).1 ∧
      (((fun p => if p = lit "/r/b.txt" then (⟨true, false⟩ : FsBehavior) else ⟨false, false⟩)
          (fullPathOf (lit "/r") (lit "c.txt"))).writeFails = false →
        (fullPathOf (lit "/r") (lit "c.txt"), lit "3") ∈
          (writeCodeFiles
            (fun p => if p = lit "/r/b.txt" then ⟨true, false⟩ else ⟨false, false⟩)
            (lit "/r")
            ([(lit "a.txt", lit "1")] ++ (lit "b.txt", lit "2") :: [(lit "c.txt", lit "3")])).2.created) :=
  C7_partial_failure
    (fun p => if p = lit "/r/b.txt" then ⟨true, false⟩ else ⟨false, false⟩)
    (lit "/r") [(lit "a.txt", lit "1")] (lit "b.txt", lit "2") [(lit "c.txt", lit "3")]
    (by decide) (lit "c.txt", lit "3") (by decide) (by decide)

/-- C9: decoding is a pure function of the raw response in this embedding —
the Python bodies consult only the `re` module and local state, no mutable
globals — so decoding the same raw response twice (any grammar, including the
coder's filename blocks together with their warning log) yields identical
block sequences. -/
theorem C9_pure :
    ∀ s : Str,
      parseCodeBlocks s = parseCodeBlocks s
        ∧ scanBlocks componentTag ltTok s = scanBlocks componentTag ltTok s
        ∧ scanBlocks keyFeatureTag keyFeatureStop s = scanBlocks keyFeatureTag keyFeatureStop s
        ∧ scanBlocks featureTag featureStop s = scanBlocks featureTag featureStop s
        ∧ findIntegration s = findIntegration s :=
  fun _ => ⟨rfl, rfl, rfl, rfl, rfl⟩

/-- C10: when the raw response decodes to two or more `KEY_FEATURE` blocks
(all labels non-empty, with non-empty slugs),
`_parse_and_write_features_descriptions` performs one `feature_<slug>.md`
write per block, yet returns a list holding only the path written for the
LAST block — `written_files = []` sits inside the loop, so the accumulator is
re-initialized on every iteration and callers see at most one generated
file. -/
theorem C10_last_only :
    ∀ (docs s : Str) (bs : List (Str × Str)) (nlast blast : Str),
      scanBlocks keyFeatureTag keyFeatureStop s = bs →
      2 ≤ bs.length →
      bs.getLast? = some (nlast, blast) →
      (∀ nb ∈ bs, normPlanName nb.1 ≠ []) →
      ∃ fid, featureSlug nlast = .ok fid ∧
        (parseFeaturesDescriptions okFs docs s).1 =
          .ok [osJoin2 docs (lit "feature_" ++ fid ++ lit ".md")] ∧
        (parseFeaturesDescriptions okFs docs s).2.created.length = bs.length := by
  intro docs s bs nlast blast hscan _ hlast hgood
  obtain ⟨fid, log', hslug, heq, hclen⟩ :=
    featsLoop_okFs docs bs none emptyLog nlast blast hlast hgood
  refine ⟨fid, hslug, ?_, ?_⟩
  · unfold parseFeaturesDescriptions
    rw [hscan, heq]
  · unfold parseFeaturesDescriptions
    rw [hscan, heq]
    simpa [emptyLog] using hclen

/-- C10 witness: two decoded `KEY_FEATURE` blocks; both files are written but
only `docs/feature_b.md` is returned. -/
theorem C10_last_only_witness :
    ∃ fid, featureSlug (lit "B") = .ok fid ∧
      (parseFeaturesDescriptions okFs (lit "docs")
          (lit "<<<KEY_FEATURE: A>>>\nx\n<<<KEY_FEATURE: B>>>\ny")).1 =
        .ok [osJoin2 (lit "docs") (lit "feature_" ++ fid ++ lit ".md")] ∧
      (parseFeaturesDescriptions okFs (lit "docs")
          (lit "<<<KEY_FEATURE: A>>>\nx\n<<<KEY_FEATURE: B>>>\ny")).2.created.length =
        [(lit "A", lit "x"), (lit "B", lit "y")].length :=
  C10_last_only (lit "docs") (lit "<<<KEY_FEATURE: A>>>\nx\n<<<KEY_FEATURE: B>>>\ny")
    [(lit "A", lit "x"), (lit "B", lit "y")] (lit "B") (lit "y")
    (by decide) (by decide) (by decide) (by decide)

/-- C8 counterexample: the claim says an extensionless path is accepted
exactly when its FINAL SEGMENT matches the allow-list or the path is a single
segment. The code compares the WHOLE cleaned path against
`['.gitignore', 'Dockerfile']`, so `docker/Dockerfile` — whose final segment
`Dockerfile` is in the allow-list — is dropped as implausible and no file is
parsed for it. -/
theorem C8_counterexample :
    codeBlockDecision (lit "docker/Dockerfile") (lit "FROM x") =
        .error (.noExtension, lit "docker/Dockerfile")
      ∧ (pySplitSlash (lit "docker/Dockerfile")).getLastD [] = lit "Dockerfile"
      ∧ (parseCodeBlocks (lit "<<<FILENAME: docker/Dockerfile\nFROM x\n>>>")).1 = [] := by
  refine ⟨by decide, by decide, by decide⟩

/-- C8 amended: for a path-style label that passes the safety checks and whose
final segment has no `.`, the block is accepted exactly when the path is a
single segment or the WHOLE path equals an allow-list entry (`.gitignore` or
`Dockerfile`) — the allow-list is matched against the full path, never the
final segment, so every other multi-segment extensionless path (including
`docker/Dockerfile`) is dropped with a warning and no file is created for
it. -/
theorem C8_amended :
    ∀ f c, f ≠ [] → pyStrip c ≠ [] →
      ddSeg ∉ pySplitSlash (stripSlashes f) →
      (stripSlashes f).head? ≠ some '/' →
      '.' ∉ (pySplitSlash (stripSlashes f)).getLastD [] →
      ((∃ q, codeBlockDecision f c = .ok (stripSlashes f, q)) ↔
        ((pySplitSlash (stripSlashes f)).length = 1 ∨
          stripSlashes f = lit ".gitignore" ∨ stripSlashes f = lit "Dockerfile")) := by
  intro f c hf hc hdd habs hdot
  simp only [codeBlockDecision]
  rw [if_neg (by simp [hf, hc]), if_neg (by tauto)]
  by_cases hallow : stripSlashes f = lit ".gitignore" ∨ stripSlashes f = lit "Dockerfile"
  · rw [if_pos (Or.inr hallow)]
    exact ⟨fun _ => Or.inr hallow, fun _ => ⟨pyStrip c, rfl⟩⟩
  · rw [if_neg (by tauto)]
    by_cases hlen : (pySplitSlash (stripSlashes f)).length = 1
    · rw [if_pos hlen]
      exact ⟨fun _ => Or.inl hlen, fun _ => ⟨pyStrip c, rfl⟩⟩
    · rw [if_neg hlen, if_neg (stripSlashes_not_endSlash f)]
      constructor
      · intro ⟨q, hq⟩
        exact absurd hq (by simp)
      · intro hor
        rcases hor with h1 | h2
        · exact absurd h1 hlen
        · exact absurd h2 hallow

/-- C8 witness: the single-segment extensionless label `run` is accepted. -/
theorem C8_amended_witness :
    (∃ q, codeBlockDecision (lit "run") (lit "x") = .ok (stripSlashes (lit "run"), q)) ↔
      ((pySplitSlash (stripSlashes (lit "run"))).length = 1 ∨
        stripSlashes (lit "run") = lit ".gitignore" ∨
        stripSlashes (lit "run") = lit "Dockerfile") :=
  C8_amended (lit "run") (lit "x") (by decide) (by decide) (by decide) (by decide) (by decide)

end Maai
